import Mathlib

/-!
# Verification of the NAM audio-FX plugin core (src/src/dsp/nam_plugin.cpp)

Shallow embedding of the plugin's data model and operations.  The source
file contains two near-identical revisions of the plugin; the second
revision (the one with cabinet-IR support, lines 433-1147) is the one
embedded here, as all claims reference it.

Modelling conventions:
* `float` audio samples are embedded as `ℚ` (exact arithmetic); the claims
  under verification are structural/data-flow properties, not rounding
  properties.
* `int16_t` buffer samples are embedded as `Int`.
* C strings are embedded as `List Char` (for the directory-scanning and
  name-derivation helpers) or `String` (for instance fields).
* The opaque external neural model (`NeuralAudio::NeuralModel`) is embedded
  as a function `List ℚ → List ℚ`: `Process(in, out, n)` writes the first
  `n` samples of `f (first n input samples)` into the output scratch buffer.
* Heap pointers that may be null (`model`, `pending_model`, `cab_ir`,
  `cab_history`) are embedded as `Option`.
* Fixed C arrays (`mono_in[128]`, `mono_out[128]`, the history buffer) are
  embedded as lists; in-place stores become `List.set`.
-/

namespace Nam

/-- FRAMES_PER_BLOCK from the source. -/
def FRAMES_PER_BLOCK : Nat := 128

/-- MAX_IR_LEN from the source. -/
def MAX_IR_LEN : Nat := 8192

/-! ## String helpers: path_to_name / is_model_file (from the source) -/

/-- `tolower` as used by `strcasecmp` on ASCII letters. -/
def toLowerC (c : Char) : Char :=
  if 'A' ≤ c ∧ c ≤ 'Z' then Char.ofNat (c.toNat + 32) else c

/-- `strcasecmp` over C strings embedded as char lists: compares the
lowercased characters; at the end of one string the NUL terminator (0)
compares below any remaining character. -/
def casecmp : List Char → List Char → Ordering
  | [], [] => Ordering.eq
  | [], _ :: _ => Ordering.lt
  | _ :: _, [] => Ordering.gt
  | a :: as, b :: bs =>
    if (toLowerC a).toNat < (toLowerC b).toNat then Ordering.lt
    else if (toLowerC b).toNat < (toLowerC a).toNat then Ordering.gt
    else casecmp as bs

/-- `strrchr(s, c) ? (the suffix after the last slash) : s` — the basename
part of `path_to_name`. -/
def basenameOf (l : List Char) : List Char :=
  (l.reverse.takeWhile (fun c => c ≠ '/')).reverse

/-- Strip the extension: everything from the last dot on is dropped
(`strrchr(base, '.')` in `path_to_name`); if there is no dot the name is
kept whole. -/
def stripExt (l : List Char) : List Char :=
  if l.contains '.' then ((l.reverse.dropWhile (fun c => c ≠ '.')).drop 1).reverse
  else l

/-- `path_to_name` from the source: strip directory and extension, truncate
to MAX_NAME_LEN-1 = 127 characters. -/
def path_to_name_l (l : List Char) : List Char :=
  (stripExt (basenameOf l)).take 127

/-- `path_to_name` on `String` fields. -/
def path_to_name (p : String) : String :=
  ⟨path_to_name_l p.data⟩

/-- The extension including the dot, as returned by `strrchr(name, '.')`
in `is_model_file`; `none` when no dot occurs. -/
def extOf (l : List Char) : Option (List Char) :=
  if l.contains '.' then some ('.' :: (l.reverse.takeWhile (fun c => c ≠ '.')).reverse)
  else none

/-- `is_model_file` from the source: the part from the last dot compares
case-insensitively equal to ".nam", ".json" or ".aidax". -/
def is_model_file (name : List Char) : Bool :=
  match extOf name with
  | none => false
  | some ext =>
    casecmp ext ".nam".data = Ordering.eq
    || casecmp ext ".json".data = Ordering.eq
    || casecmp ext ".aidax".data = Ordering.eq

/-! ## scan_directory (from the source) -/

/-- One swap step of the source's in-place sort: exchange the entries at
positions `i` and `j` of the parallel name/path table. -/
def swapAt2 {α : Type} [Inhabited α] (l : List α) (i j : Nat) : List α :=
  (l.set i (l.getD j default)).set j (l.getD i default)

/-- The source's double-loop compare-and-swap sort over the (name, path)
table: `for i in 0..n-1, for j in i+1..n-1: if strcasecmp(names[i],
names[j]) > 0 then swap entries i and j`. -/
def sortEntries (cmp : (List Char × List Char) → (List Char × List Char) → Ordering)
    (l : List (List Char × List Char)) : List (List Char × List Char) :=
  (List.range l.length).foldl
    (fun acc i =>
      (List.range l.length).foldl
        (fun acc2 j =>
          if i < j ∧ cmp (acc2.getD i default) (acc2.getD j default) = Ordering.gt
          then swapAt2 acc2 i j else acc2)
        acc)
    l

/-- `scan_directory` from the source, with the `readdir` stream supplied as
the list `entries` of `d_name` strings (the on-disk enumeration order is
OS-defined, hence a parameter).  Skips hidden (leading-dot) entries, keeps
the ones matching `filter` up to `max_entries`, builds (name, path) pairs
(`snprintf "%s/%s"` truncates at MAX_PATH_LEN-1 = 511, `path_to_name`
truncates at MAX_NAME_LEN-1 = 127), then sorts by `strcasecmp` on names. -/
def scan_directory (dir_path : List Char) (entries : List (List Char))
    (max_entries : Nat) (filter : List Char → Bool) :
    List (List Char × List Char) :=
  let kept := (entries.filter
    (fun e => !(e.headD ' ' = '.') && filter e)).take max_entries
  let items := kept.map (fun e =>
    (path_to_name_l e, (dir_path ++ '/' :: e).take 511))
  sortEntries (fun a b => casecmp a.1 b.1) items

/-! ## Instance state (from `nam_instance_t`, second revision) -/

/-- The opaque external neural model: its `Process` as a stream function. -/
def Model : Type := List ℚ → List ℚ

/-- `nam_instance_t` from the source (second revision, with cabinet IR
fields).  Pointer fields that may be null are `Option`; `module_dir` is
kept only through the derived catalogs, which all claims take as given. -/
structure NamInstance where
  model : Option Model
  pending_model : Option Model
  loading : Bool
  model_path : String
  model_name : String
  model_count : Int
  model_names : List String
  model_paths : List String
  current_model_index : Int
  cab_ir : Option (List ℚ)
  cab_ir_len : Int
  cab_history : Option (List ℚ)
  cab_hist_pos : Nat
  cab_bypass : Bool
  cab_name : String
  cab_count : Int
  cab_names : List String
  cab_paths : List String
  current_cab_index : Int
  input_level : ℚ
  output_level : ℚ
  input_gain : ℚ
  output_gain : ℚ
  mono_in : List ℚ
  mono_out : List ℚ

/-! ## Convolution engine: apply_cab_ir (from the source) -/

/-- The inner convolution sum of `apply_cab_ir`: "sum of ir[k] * hist[pos-k]
for k=0..ir_len-1" (the source's own comment), with the backward walk
wrapping modulo the history length `H`. -/
def convSum (ir hist : List ℚ) (irLen H p : Nat) : ℚ :=
  ∑ k in Finset.range irLen,
    ir.getD k 0 * hist.getD ((((p : Int) - k) % (H : Int)).toNat) 0

/-- The per-sample loop of `apply_cab_ir` over the samples `x`:
write the input sample into the circular history at the cursor, overwrite
it with the convolution sum, advance the cursor modulo
`hist_len = ir_len + FRAMES_PER_BLOCK`.  Returns the output samples, the
final history and the final cursor. -/
def cabRun (ir : List ℚ) (irLen : Nat) :
    List ℚ → List ℚ → Nat → List ℚ × List ℚ × Nat
  | [], hist, pos => ([], hist, pos)
  | a :: rest, hist, pos =>
    let H := irLen + FRAMES_PER_BLOCK
    let hist1 := hist.set pos a
    let y := convSum ir hist1 irLen H pos
    let r := cabRun ir irLen rest hist1 ((pos + 1) % H)
    (y :: r.1, r.2.1, r.2.2)

/-- `apply_cab_ir` from the source: no-op when no IR, empty IR length, or
no history buffer is attached; otherwise runs the convolution loop over the
first `frames` samples of `audio` in place and stores the advanced
history/cursor back into the instance. -/
def apply_cab_ir (inst : NamInstance) (audio : List ℚ) (frames : Nat) :
    NamInstance × List ℚ :=
  match inst.cab_ir, inst.cab_history with
  | some ir, some hist =>
    if inst.cab_ir_len ≤ 0 then (inst, audio)
    else
      let r := cabRun ir inst.cab_ir_len.toNat (audio.take frames) hist inst.cab_hist_pos
      ({ inst with cab_history := some r.2.1, cab_hist_pos := r.2.2 },
        r.1 ++ audio.drop frames)
  | _, _ => (inst, audio)

/-- Textbook direct-form FIR convolution of the stream `x` with the first
`irLen` taps of `ir` (zero-padded history before the stream start).  This
is the specification-side definition the claim compares `apply_cab_ir`
against. -/
def fir (ir : List ℚ) (irLen : Nat) (x : List ℚ) : List ℚ :=
  (List.range x.length).map (fun i =>
    ∑ k in Finset.range irLen,
      ir.getD k 0 * (if k ≤ i then x.getD (i - k) 0 else 0))

/-- The value of the input stream `s` at integer time `i` (zero before the
stream starts).  Used to state the circular-history invariant. -/
def streamVal (s : List ℚ) (i : Int) : ℚ :=
  if 0 ≤ i then s.getD i.toNat 0 else 0

/-! ## load_cab (from the source) -/

/-- Heap actions performed by `load_cab`, in program order, so the
install-before-free discipline can be stated. -/
inductive CabAction
  | freeNewIR
  | installIR
  | installHist
  | freeOldIR
  | freeOldHist
deriving DecidableEq

/-- `load_cab` from the source.  `decoded` is the sample array produced by
the `load_wav_ir` collaborator for `cab_paths[index]` (already capped at
MAX_IR_LEN by the reader); an empty list is the reader's failure result
(`ir_len <= 0`).  Returns the updated instance and the ordered list of
heap actions taken.  The calloc'd IR buffer physically holds MAX_IR_LEN
floats of which only the first `ir_len` are ever read, so it is embedded
as the `decoded` list itself. -/
def load_cab (inst : NamInstance) (index : Int) (decoded : List ℚ) :
    NamInstance × List CabAction :=
  if index < 0 ∨ inst.cab_count ≤ index then (inst, [])
  else
    let ir_len : Int := decoded.length
    if ir_len ≤ 0 then (inst, [CabAction.freeNewIR])
    else
      ({ inst with
          cab_ir := some decoded,
          cab_ir_len := ir_len,
          current_cab_index := index,
          cab_name := path_to_name (inst.cab_paths.getD index.toNat ""),
          cab_history := some (List.replicate (ir_len.toNat + FRAMES_PER_BLOCK) 0),
          cab_hist_pos := 0 },
        [CabAction.installIR, CabAction.installHist,
         CabAction.freeOldIR, CabAction.freeOldHist])

/-! ## Background loader thread and async load (from the source) -/

/-- The observable stores performed by `model_loader_thread`, in program
order: diagnostics, the release-store of the construction result into the
pending slot, the release-store clearing the loading flag. -/
inductive LoadEvent
  | logMsg
  | storePending (m : Option Model)
  | clearLoading

/-- `model_loader_thread` from the source, as its ordered store/log trace:
log "loading model", construct (result `result`, null on failure), log the
outcome, store the result into `pending_model`, clear `loading`. -/
def model_loader_thread (result : Option Model) : List LoadEvent :=
  [LoadEvent.logMsg, LoadEvent.logMsg,
   LoadEvent.storePending result, LoadEvent.clearLoading]

/-- The shared hand-off cell: the pending-model slot and the loading flag. -/
structure HandoffState where
  pending : Option Model
  loading : Bool

/-- Effect of one loader event on the hand-off cell. -/
def applyEvent (s : HandoffState) : LoadEvent → HandoffState
  | LoadEvent.logMsg => s
  | LoadEvent.storePending m => { s with pending := m }
  | LoadEvent.clearLoading => { s with loading := false }

/-- Replay a trace of loader events over the hand-off cell. -/
def runEvents (s : HandoffState) (es : List LoadEvent) : HandoffState :=
  es.foldl applyEvent s

/-- `load_model_async` from the source: if a load is already in flight the
request is dropped (no thread started, nothing written); otherwise record
path (strncpy cap MAX_PATH_LEN-1 = 511) and display name, set `loading`,
and spawn the detached loader thread.  The returned `Bool` is whether
`pthread_create` was reached (a background task was started). -/
def load_model_async (inst : NamInstance) (path : String) :
    NamInstance × Bool :=
  if inst.loading then (inst, false)
  else
    ({ inst with
        model_path := ⟨path.data.take 511⟩,
        model_name := path_to_name path,
        loading := true },
      true)

/-! ## Block processing: v2_process_block (from the source) -/

/-- `clampf` from the source. -/
def clampf (v lo hi : ℚ) : ℚ :=
  if v < lo then lo else if v > hi then hi else v

/-- The C cast `(int16_t)(s * 32767.0f)`: truncation toward zero.  For
`s ∈ [-1, 1]` the product is within int16 range, so no wrap occurs. -/
def toInt16 (s : ℚ) : Int :=
  if 0 ≤ s * 32767 then (s * 32767).floor else (s * 32767).ceil

/-- A loop `for i in 0..n-1: buf[i] = g i` over a scratch buffer. -/
def writeLoop (g : Nat → ℚ) (n : Nat) (buf : List ℚ) : List ℚ :=
  (List.range n).foldl (fun b i => b.set i (g i)) buf

/-- The re-interleave loop: `for i in 0..n-1: buf[2i] = buf[2i+1] = v i`. -/
def interleaveLoop (v : Nat → Int) (n : Nat) (buf : List Int) : List Int :=
  (List.range n).foldl (fun b i => (b.set (2 * i) (v i)).set (2 * i + 1) (v i)) buf

/-- The lock-free activation at the top of `v2_process_block`: if the
pending slot is non-null, move it into the active-model field and clear
the slot (the old model is deleted, which the state does not track). -/
def activate_pending (inst : NamInstance) : NamInstance :=
  match inst.pending_model with
  | none => inst
  | some m => { inst with model := some m, pending_model := none }

/-- The per-frame deinterleave/downmix expression of `v2_process_block`:
`l = audio[2i]/32768; r = audio[2i+1]/32768; (l + r) * 0.5f * ig`. -/
def deinterleave (audio : List Int) (ig : ℚ) (i : Nat) : ℚ :=
  ((audio.getD (2 * i) 0 : ℚ) / 32768 + (audio.getD (2 * i + 1) 0 : ℚ) / 32768)
    * (1 / 2) * ig

/-- The guarded convolution stage of `v2_process_block`:
`if (!inst->cab_bypass && inst->cab_ir) apply_cab_ir(inst, mono_out, n)`. -/
def cab_stage (inst : NamInstance) (buf : List ℚ) (nn : Nat) :
    NamInstance × List ℚ :=
  if (!inst.cab_bypass && inst.cab_ir.isSome) = true
  then apply_cab_ir inst buf nn
  else (inst, buf)

/-- The C cast `(size_t)n` (64-bit `size_t`): a negative `n` wraps to
`2^64 + n`.  This is the count the source hands to `model->Process`. -/
def sizeT (n : Int) : Nat :=
  (n % (2 ^ 64 : Int)).toNat

/-- The body of `v2_process_block` once a model is active, for the signed
clamped frame count `n = (frames > 128) ? 128 : frames`: deinterleave/
downmix into `mono_in`, invoke the model, apply the cab IR unless bypassed
or absent, then re-interleave with output gain, clamp and int16
conversion.  Each `for (i = 0; i < n; ...)` loop runs `n.toNat = max(n,0)`
iterations, but the model call receives `(size_t)n` — for negative `n`
that is the wrapped count `2^64 + n`, so the model is still invoked and
(per the Process contract) overwrites the `mono_out` scratch; the heap
corruption such an out-of-bounds write causes in C beyond the buffer's
128 floats is not representable in the embedding (`List.set` past the end
is a no-op), but the in-buffer writes are. -/
def process_core (inst : NamInstance) (f : Model) (audio : List Int)
    (n : Int) : NamInstance × List Int :=
  let mono_in1 := writeLoop (deinterleave audio inst.input_gain) n.toNat inst.mono_in
  let mono_out1 := writeLoop (fun i => (f (mono_in1.take (sizeT n))).getD i 0)
    (sizeT n) inst.mono_out
  let r := cab_stage { inst with mono_in := mono_in1, mono_out := mono_out1 }
    mono_out1 n.toNat
  ({ r.1 with mono_out := r.2 },
    interleaveLoop (fun i => toInt16 (clampf (r.2.getD i 0 * r.1.output_gain) (-1) 1))
      n.toNat audio)

/-- `int n = (frames > FRAMES_PER_BLOCK) ? FRAMES_PER_BLOCK : frames` —
the signed clamped frame count. -/
def clampInt (frames : Int) : Int :=
  if frames > (FRAMES_PER_BLOCK : Int) then (FRAMES_PER_BLOCK : Int) else frames

/-- The number of iterations each `for (i = 0; i < n; ...)` loop of the
block actually executes: `max(n, 0)` for the signed clamped count `n`. -/
def clampFrames (frames : Int) : Nat :=
  (clampInt frames).toNat

/-- `v2_process_block` from the source: activate a pending model, pass
through when no model is active, otherwise clamp the frame count to
FRAMES_PER_BLOCK and run the pipeline. -/
def v2_process_block (inst : NamInstance) (audio : List Int) (frames : Int) :
    NamInstance × List Int :=
  let inst1 := activate_pending inst
  match inst1.model with
  | none => (inst1, audio)
  | some f => process_core inst1 f audio (clampInt frames)

/-! ## Parameter set/get, model_index key (from the source) -/

/-- The `"model_index"` branch of `v2_set_param`: with `idx = atoi(val)`,
if the index is in range and differs from the current selection, update
`current_model_index` and then request an async load of that entry's path.
The `Bool` is whether a background task was started. -/
def v2_set_param_model_index (inst : NamInstance) (idx : Int) :
    NamInstance × Bool :=
  if 0 ≤ idx ∧ idx < inst.model_count ∧ idx ≠ inst.current_model_index then
    load_model_async { inst with current_model_index := idx }
      (inst.model_paths.getD idx.toNat "")
  else (inst, false)

/-- The `"model_index"` branch of `v2_get_param`: snprintf "%d" of the
current selection. -/
def v2_get_param_model_index (inst : NamInstance) : String :=
  toString inst.current_model_index

/-! ## A structural permutation enumerator (proof infrastructure for the
catalog-scan claim: quantifies over the OS-defined `readdir` order) -/

/-- All ways of inserting `a` into a list. -/
def insertsOf {α : Type} (a : α) : List α → List (List α)
  | [] => [[a]]
  | b :: bs => (a :: b :: bs) :: (insertsOf a bs).map (fun l => b :: l)

/-- All permutations of a list, by iterated insertion (structural
recursion, so it reduces inside `decide`). -/
def permsOf {α : Type} : List α → List (List α)
  | [] => [[]]
  | a :: as => (permsOf as).flatMap (insertsOf a)

/-! ## Concrete instances used by the witness theorems -/

/-- A freshly created instance (the state after `v2_create_instance` with
empty catalogs): no model, no pending model, no cab IR. -/
def emptyInst : NamInstance where
  model := none
  pending_model := none
  loading := false
  model_path := ""
  model_name := ""
  model_count := 0
  model_names := []
  model_paths := []
  current_model_index := -1
  cab_ir := none
  cab_ir_len := 0
  cab_history := none
  cab_hist_pos := 0
  cab_bypass := false
  cab_name := ""
  cab_count := 0
  cab_names := []
  cab_paths := []
  current_cab_index := -1
  input_level := 1 / 2
  output_level := 1 / 2
  input_gain := 1
  output_gain := 1
  mono_in := List.replicate FRAMES_PER_BLOCK 0
  mono_out := List.replicate FRAMES_PER_BLOCK 0

/-- A stand-in for a successfully constructed neural model. -/
def idModel : Model := fun l => l

/-- An instance with an active model (identity stand-in) and unit gains. -/
def activeInst : NamInstance :=
  { emptyInst with model := some idModel }

/-- A stand-in model with constant non-zero output, to observe the model
stage writing into the `mono_out` scratch. -/
def constModel : Model := fun _ => List.replicate FRAMES_PER_BLOCK 7

/-- An instance whose active model is the constant-output stand-in. -/
def negInst : NamInstance :=
  { emptyInst with model := some constModel }

/-- An instance with a load in flight. -/
def loadingInst : NamInstance :=
  { emptyInst with
      loading := true,
      model_count := 2,
      model_names := ["m0", "m1"],
      model_paths := ["models/m0.nam", "models/m1.nam"],
      current_model_index := 0 }

/-- An instance with a two-tap cab IR installed and a fresh history. -/
def cabInst : NamInstance :=
  { emptyInst with
      cab_ir := some [1, 0],
      cab_ir_len := 2,
      cab_history := some (List.replicate (2 + FRAMES_PER_BLOCK) 0),
      cab_hist_pos := 0,
      cab_count := 1,
      cab_names := ["c0"],
      cab_paths := ["cabs/c0.wav"],
      current_cab_index := 0 }

/-! ## Generic list-indexing helper lemmas (used throughout) -/

theorem getD_set_self {α : Type} (l : List α) (i : Nat) (v d : α)
    (h : i < l.length) : (l.set i v).getD i d = v := by
  induction l generalizing i with
  | nil => simp at h
  | cons a as ih =>
    cases i with
    | zero => rfl
    | succ n => exact ih n (by simpa using h)

theorem getD_set_ne {α : Type} (l : List α) (i j : Nat) (v d : α)
    (h : i ≠ j) : (l.set i v).getD j d = l.getD j d := by
  induction l generalizing i j with
  | nil => cases i <;> rfl
  | cons a as ih =>
    cases i with
    | zero =>
      cases j with
      | zero => exact absurd rfl h
      | succ m => rfl
    | succ n =>
      cases j with
      | zero => rfl
      | succ m => exact ih n m (by omega)

theorem getD_append_left {α : Type} (s t : List α) (i : Nat) (d : α)
    (h : i < s.length) : (s ++ t).getD i d = s.getD i d := by
  induction s generalizing i with
  | nil => simp at h
  | cons a as ih =>
    cases i with
    | zero => rfl
    | succ n => exact ih n (by simpa using h)

theorem getD_append_right {α : Type} (s t : List α) (i : Nat) (d : α)
    (h : s.length ≤ i) : (s ++ t).getD i d = t.getD (i - s.length) d := by
  induction s generalizing i with
  | nil => simp
  | cons a as ih =>
    cases i with
    | zero => simp at h
    | succ n => simpa using ih n (by simpa using h)

theorem getD_replicate {α : Type} (n i : Nat) (a : α) :
    (List.replicate n a).getD i a = a := by
  induction n generalizing i with
  | zero => cases i <;> rfl
  | succ m ih =>
    cases i with
    | zero => rfl
    | succ k => exact ih k

theorem getD_oob {α : Type} (l : List α) (i : Nat) (d : α)
    (h : l.length ≤ i) : l.getD i d = d := by
  induction l generalizing i with
  | nil => cases i <;> rfl
  | cons a as ih =>
    cases i with
    | zero => simp at h
    | succ n => exact ih n (by simpa using h)

theorem getD_map_range {α : Type} (g : Nat → α) (n i : Nat) (d : α)
    (h : i < n) : ((List.range n).map g).getD i d = g i := by
  induction n generalizing i with
  | zero => omega
  | succ m ih =>
    rw [List.range_succ, List.map_append]
    rcases Nat.lt_or_ge i m with hlt | hge
    · rw [getD_append_left _ _ _ _ (by simpa using hlt)]
      exact ih i hlt
    · have hi : i = m := by omega
      subst hi
      rw [getD_append_right _ _ _ _ (by simp)]
      simp

theorem mem_insertsOf_erase {α : Type} [DecidableEq α] (a : α) :
    ∀ (l : List α), a ∈ l → l ∈ insertsOf a (l.erase a)
  | [], h => by simp at h
  | b :: t, h => by
    by_cases hb : b = a
    · subst hb
      simp only [List.erase_cons_head]
      cases t with
      | nil => simp [insertsOf]
      | cons c cs => simp [insertsOf]
    · have ht : a ∈ t := by
        rcases List.mem_cons.mp h with h1 | h1
        · exact absurd h1.symm hb
        · exact h1
      have he : (b :: t).erase a = b :: t.erase a := by
        simp [List.erase_cons, hb]
      rw [he]
      have ih := mem_insertsOf_erase a t ht
      have hu : insertsOf a (b :: t.erase a)
          = (a :: b :: t.erase a) :: (insertsOf a (t.erase a)).map (fun l => b :: l) :=
        rfl
      rw [hu]
      exact List.mem_cons_of_mem _ (List.mem_map_of_mem _ ih)

theorem permsOf_complete {α : Type} [DecidableEq α] :
    ∀ (l2 l1 : List α), l1.Perm l2 → l1 ∈ permsOf l2
  | [], l1, h => by
    rw [List.perm_nil.mp h]
    simp [permsOf]
  | a :: as, l1, h => by
    have ha : a ∈ l1 := h.symm.subset (List.mem_cons_self a as)
    have he : l1.erase a ∈ permsOf as := by
      apply permsOf_complete
      have := h.erase a
      rwa [List.erase_cons_head] at this
    simp only [permsOf, List.mem_flatMap]
    exact ⟨l1.erase a, he, mem_insertsOf_erase a l1 ha⟩

theorem set_oob {α : Type} (l : List α) (i : Nat) (v : α)
    (h : l.length ≤ i) : l.set i v = l := by
  induction l generalizing i with
  | nil => rfl
  | cons a as ih =>
    cases i with
    | zero => simp at h
    | succ n => simp [ih n (by simpa using h)]

theorem getD_drop {α : Type} (l : List α) (n i : Nat) (d : α) :
    (l.drop n).getD i d = l.getD (n + i) d := by
  induction l generalizing n with
  | nil => simp
  | cons a as ih =>
    cases n with
    | zero => simp
    | succ m =>
      rw [Nat.succ_add]
      exact ih m

/-! ## Characterization of the per-frame loops of process_core -/

theorem writeLoop_succ (g : Nat → ℚ) (n : Nat) (buf : List ℚ) :
    writeLoop g (n + 1) buf = (writeLoop g n buf).set n (g n) := by
  unfold writeLoop
  rw [List.range_succ, List.foldl_append]
  rfl

theorem writeLoop_length (g : Nat → ℚ) (n : Nat) (buf : List ℚ) :
    (writeLoop g n buf).length = buf.length := by
  induction n with
  | zero => rfl
  | succ m ih => rw [writeLoop_succ, List.length_set, ih]

theorem writeLoop_getD (g : Nat → ℚ) (n : Nat) (buf : List ℚ) (j : Nat) (d : ℚ) :
    (writeLoop g n buf).getD j d
      = if j < n ∧ j < buf.length then g j else buf.getD j d := by
  induction n with
  | zero => simp [writeLoop]
  | succ m ih =>
    rw [writeLoop_succ]
    by_cases hj : j = m
    · subst hj
      by_cases hb : j < buf.length
      · rw [getD_set_self _ _ _ _ (by rw [writeLoop_length]; exact hb)]
        simp [hb]
      · rw [set_oob _ _ _ (by rw [writeLoop_length]; omega), ih]
        have h1 : ¬(j < j ∧ j < buf.length) := by omega
        have h2 : ¬(j < j + 1 ∧ j < buf.length) := by omega
        rw [if_neg h1, if_neg h2]
    · have hiff : (j < m ∧ j < buf.length) ↔ (j < m + 1 ∧ j < buf.length) := by
        omega
      rw [getD_set_ne _ _ _ _ _ fun e => hj e.symm, ih, if_congr hiff rfl rfl]

theorem interleaveLoop_succ (v : Nat → Int) (n : Nat) (buf : List Int) :
    interleaveLoop v (n + 1) buf
      = ((interleaveLoop v n buf).set (2 * n) (v n)).set (2 * n + 1) (v n) := by
  unfold interleaveLoop
  rw [List.range_succ, List.foldl_append]
  rfl

theorem interleaveLoop_length (v : Nat → Int) (n : Nat) (buf : List Int) :
    (interleaveLoop v n buf).length = buf.length := by
  induction n with
  | zero => rfl
  | succ m ih => rw [interleaveLoop_succ, List.length_set, List.length_set, ih]

theorem interleaveLoop_getD (v : Nat → Int) (n : Nat) (buf : List Int)
    (j : Nat) (d : Int) :
    (interleaveLoop v n buf).getD j d
      = if j < 2 * n ∧ j < buf.length then v (j / 2) else buf.getD j d := by
  induction n with
  | zero => simp [interleaveLoop]
  | succ m ih =>
    rw [interleaveLoop_succ]
    have hlen : (interleaveLoop v m buf).length = buf.length :=
      interleaveLoop_length v m buf
    by_cases hj1 : j = 2 * m + 1
    · subst hj1
      by_cases hb : 2 * m + 1 < buf.length
      · rw [getD_set_self _ _ _ _ (by rw [List.length_set, hlen]; exact hb)]
        have hd : (2 * m + 1) / 2 = m := by omega
        have hc : 2 * m + 1 < 2 * (m + 1) ∧ 2 * m + 1 < buf.length := ⟨by omega, hb⟩
        rw [if_pos hc, hd]
      · have hL : (((interleaveLoop v m buf).set (2 * m) (v m)).set
            (2 * m + 1) (v m)).length ≤ 2 * m + 1 := by
          rw [List.length_set, List.length_set, hlen]
          omega
        have h2 : ¬(2 * m + 1 < 2 * (m + 1) ∧ 2 * m + 1 < buf.length) := by omega
        rw [getD_oob _ _ _ hL, if_neg h2, getD_oob _ _ _ (by omega)]
    · rw [getD_set_ne _ _ _ _ _ fun e => hj1 e.symm]
      by_cases hj2 : j = 2 * m
      · subst hj2
        by_cases hb : 2 * m < buf.length
        · rw [getD_set_self _ _ _ _ (by rw [hlen]; exact hb)]
          have hd : 2 * m / 2 = m := by omega
          have hc : 2 * m < 2 * (m + 1) ∧ 2 * m < buf.length := ⟨by omega, hb⟩
          rw [if_pos hc, hd]
        · rw [set_oob _ _ _ (by rw [hlen]; omega), ih]
          have h1 : ¬(2 * m < 2 * m ∧ 2 * m < buf.length) := by omega
          have h2 : ¬(2 * m < 2 * (m + 1) ∧ 2 * m < buf.length) := by omega
          rw [if_neg h1, if_neg h2]
      · have hiff : (j < 2 * m ∧ j < buf.length)
            ↔ (j < 2 * (m + 1) ∧ j < buf.length) := by omega
        rw [getD_set_ne _ _ _ _ _ fun e => hj2 e.symm, ih, if_congr hiff rfl rfl]

/-! ## Structural lemmas about the convolution wrapper -/

theorem cabRun_fst_length (ir : List ℚ) (irLen : Nat) (x hist : List ℚ)
    (pos : Nat) : (cabRun ir irLen x hist pos).1.length = x.length := by
  induction x generalizing hist pos with
  | nil => rfl
  | cons a rest ih => simp [cabRun, ih]

theorem apply_cab_ir_snd_length (inst : NamInstance) (audio : List ℚ)
    (frames : Nat) : (apply_cab_ir inst audio frames).2.length = audio.length := by
  unfold apply_cab_ir
  cases h1 : inst.cab_ir with
  | none => rfl
  | some ir =>
    cases h2 : inst.cab_history with
    | none => rfl
    | some hist =>
      by_cases hl : inst.cab_ir_len ≤ 0
      · simp [hl]
      · simp only [hl, if_false, List.length_append, cabRun_fst_length,
          List.length_take, List.length_drop]
        omega

theorem apply_cab_ir_getD_beyond (inst : NamInstance) (audio : List ℚ)
    (frames : Nat) (j : Nat) (d : ℚ) (hf : frames ≤ audio.length)
    (hj : frames ≤ j) :
    (apply_cab_ir inst audio frames).2.getD j d = audio.getD j d := by
  unfold apply_cab_ir
  cases h1 : inst.cab_ir with
  | none => rfl
  | some ir =>
    cases h2 : inst.cab_history with
    | none => rfl
    | some hist =>
      by_cases hl : inst.cab_ir_len ≤ 0
      · simp [hl]
      · simp only [hl, if_false]
        have hys : (cabRun ir inst.cab_ir_len.toNat (audio.take frames) hist
            inst.cab_hist_pos).1.length = frames := by
          rw [cabRun_fst_length, List.length_take]
          omega
        rw [getD_append_right _ _ _ _ (by omega), hys, getD_drop]
        congr 1
        omega

theorem apply_cab_ir_zero (inst : NamInstance) (audio : List ℚ) :
    apply_cab_ir inst audio 0 = (inst, audio) := by
  unfold apply_cab_ir
  cases h1 : inst.cab_ir with
  | none => rfl
  | some ir =>
    cases h2 : inst.cab_history with
    | none => rfl
    | some hist =>
      by_cases hl : inst.cab_ir_len ≤ 0
      · simp [hl]
      · simp only [hl, if_false, List.take_zero, List.drop_zero, cabRun,
          List.nil_append]
        rw [← h1, ← h2]

theorem apply_cab_ir_fields (inst : NamInstance) (audio : List ℚ)
    (frames : Nat) :
    (apply_cab_ir inst audio frames).1.mono_in = inst.mono_in
    ∧ (apply_cab_ir inst audio frames).1.mono_out = inst.mono_out
    ∧ (apply_cab_ir inst audio frames).1.output_gain = inst.output_gain := by
  unfold apply_cab_ir
  cases h1 : inst.cab_ir with
  | none => exact ⟨rfl, rfl, rfl⟩
  | some ir =>
    cases h2 : inst.cab_history with
    | none => exact ⟨rfl, rfl, rfl⟩
    | some hist =>
      by_cases hl : inst.cab_ir_len ≤ 0
      · simp [hl]
      · simp [hl]

/-! ## Modular-arithmetic helpers for the circular history buffer -/

theorem natCast_mod_toNat (t H : Nat) : ((t : Int) % (H : Int)).toNat = t % H := by
  have h1 : ((t % H : Nat) : Int) = (t : Int) % (H : Int) := by push_cast; ring
  rw [← h1, Int.toNat_natCast]

theorem emod_shift_mod (t k H : Nat) :
    (((t % H : Nat) : Int) - k) % (H : Int) = ((t : Int) - k) % (H : Int) := by
  push_cast
  rw [Int.sub_emod, Int.emod_emod_of_dvd _ dvd_rfl, ← Int.sub_emod]

theorem emod_sub_ne (t d H : Nat) (h1 : 1 ≤ d) (h2 : d < H) :
    ((t : Int) - d) % (H : Int) ≠ (t : Int) % (H : Int) := by
  intro he
  rw [Int.emod_eq_emod_iff_emod_sub_eq_zero] at he
  have hd : ((t : Int) - d - t) = -(d : Int) := by ring
  rw [hd] at he
  have hdvd : (H : Int) ∣ -(d : Int) := Int.dvd_of_emod_eq_zero he
  rw [Int.dvd_neg] at hdvd
  have := Int.le_of_dvd (by omega) hdvd
  omega

theorem streamVal_append_left (s t : List ℚ) (i : Int)
    (h : i < (s.length : Int)) : streamVal (s ++ t) i = streamVal s i := by
  unfold streamVal
  by_cases h0 : 0 ≤ i
  · rw [if_pos h0, if_pos h0, getD_append_left _ _ _ _ (by omega)]
  · rw [if_neg h0, if_neg h0]

/-! ## The circular convolution loop computes the textbook FIR convolution -/

theorem cabRun_conv (ir : List ℚ) (irLen : Nat) :
    ∀ (rest prev hist : List ℚ),
    hist.length = irLen + FRAMES_PER_BLOCK →
    (∀ d : Nat, d < irLen + FRAMES_PER_BLOCK →
      hist.getD (((prev.length : Int) - 1 - d)
          % ((irLen + FRAMES_PER_BLOCK : Nat) : Int)).toNat 0
        = streamVal prev ((prev.length : Int) - 1 - d)) →
    (cabRun ir irLen rest hist (prev.length % (irLen + FRAMES_PER_BLOCK))).1
      = (List.range rest.length).map (fun j : Nat =>
          ∑ k in Finset.range irLen,
            ir.getD k 0 * streamVal (prev ++ rest) ((prev.length : Int) + (j : Int) - k))
  | [], prev, hist, hlen, hinv => by simp [cabRun]
  | a :: rest', prev, hist, hlen, hinv => by
    have hH0 : 0 < irLen + FRAMES_PER_BLOCK := by unfold FRAMES_PER_BLOCK; omega
    have h128 : 1 < irLen + FRAMES_PER_BLOCK := by unfold FRAMES_PER_BLOCK; omega
    have hirH : irLen < irLen + FRAMES_PER_BLOCK := by unfold FRAMES_PER_BLOCK; omega
    set H := irLen + FRAMES_PER_BLOCK with hHdef
    set t := prev.length with htdef
    set hist1 := hist.set (t % H) a with hhist1
    -- the updated history satisfies the invariant for the stream prev ++ [a]
    have hinv1 : ∀ d : Nat, d < H →
        hist1.getD (((t : Int) - d) % (H : Int)).toNat 0
          = streamVal (prev ++ [a]) ((t : Int) - d) := by
      intro d hd
      by_cases hd0 : d = 0
      · subst hd0
        have h0 : (t : Int) - ((0 : Nat) : Int) = (t : Int) := by push_cast; ring
        rw [h0, natCast_mod_toNat t H]
        rw [hhist1, getD_set_self _ _ _ _ (by rw [hlen]; exact Nat.mod_lt t hH0)]
        unfold streamVal
        rw [if_pos (Int.natCast_nonneg t), Int.toNat_natCast,
          getD_append_right _ _ _ _ (le_of_eq htdef.symm)]
        simp [htdef]
      · have hd1 : 1 ≤ d := by omega
        have hne : ((t : Int) - d) % (H : Int) ≠ (t : Int) % (H : Int) :=
          emod_sub_ne t d H hd1 hd
        have g1 : 0 ≤ ((t : Int) - d) % (H : Int) :=
          Int.emod_nonneg _ (by omega)
        have g3 : 0 ≤ (t : Int) % (H : Int) := Int.emod_nonneg _ (by omega)
        have g2 := natCast_mod_toNat t H
        have hneN : t % H ≠ (((t : Int) - d) % (H : Int)).toNat := by
          intro he
          exact hne (by omega)
        rw [hhist1, getD_set_ne _ _ _ _ _ hneN]
        have hd' := hinv (d - 1) (by omega)
        have hcast : ((prev.length : Int) - 1 - ((d - 1 : Nat) : Int))
            = (t : Int) - d := by
          push_cast [hd1]
          rw [← htdef]
          ring
        rw [hcast] at hd'
        rw [hd']
        by_cases hneg : 0 ≤ (t : Int) - d
        · rw [streamVal_append_left prev [a] _ (by omega)]
        · unfold streamVal
          rw [if_neg hneg, if_neg hneg]
    -- invariant in the shape the recursive call expects
    have hla : (prev ++ [a]).length = t + 1 := by simp [htdef]
    have hinv1' : ∀ d : Nat, d < H →
        hist1.getD ((((prev ++ [a]).length : Int) - 1 - d) % ((H : Nat) : Int)).toNat 0
          = streamVal (prev ++ [a]) (((prev ++ [a]).length : Int) - 1 - d) := by
      intro d hd
      have hc : ((prev ++ [a]).length : Int) - 1 - d = (t : Int) - d := by
        rw [hla]
        push_cast
        ring
      rw [hc]
      exact hinv1 d hd
    have hlen1 : hist1.length = H := by rw [hhist1, List.length_set, hlen]
    have IH := cabRun_conv ir irLen rest' (prev ++ [a]) hist1 hlen1 hinv1'
    -- align the cursor expressions
    have hpos : (t % H + 1) % H = (prev ++ [a]).length % H := by
      rw [hla, Nat.add_mod t 1 H, Nat.mod_eq_of_lt h128]
    -- unfold one step of the loop
    show (convSum ir hist1 irLen H (t % H)
        :: (cabRun ir irLen rest' hist1 ((t % H + 1) % H)).1)
      = (List.range (a :: rest').length).map (fun j : Nat =>
          ∑ k in Finset.range irLen,
            ir.getD k 0 * streamVal (prev ++ a :: rest') ((t : Int) + (j : Int) - k))
    have hy : convSum ir hist1 irLen H (t % H)
        = ∑ k in Finset.range irLen,
            ir.getD k 0 * streamVal (prev ++ a :: rest') ((t : Int) + ((0 : Nat) : Int) - k) := by
      unfold convSum
      apply Finset.sum_congr rfl
      intro k hk
      have hk' : k < irLen := Finset.mem_range.mp hk
      rw [emod_shift_mod t k H, hinv1 k (by omega)]
      have he : (t : Int) + ((0 : Nat) : Int) - k = (t : Int) - k := by
        push_cast
        ring
      rw [he]
      by_cases hneg : 0 ≤ (t : Int) - k
      · have hassoc : prev ++ a :: rest' = (prev ++ [a]) ++ rest' := by simp
        rw [hassoc, streamVal_append_left (prev ++ [a]) rest' _
          (by rw [hla]; omega)]
      · unfold streamVal
        rw [if_neg hneg, if_neg hneg]
    rw [show (a :: rest').length = rest'.length + 1 from rfl,
      List.range_succ_eq_map, List.map_cons, List.map_map]
    refine congrArg₂ List.cons ?_ ?_
    · exact hy
    · rw [hpos, IH]
      apply List.map_congr_left
      intro j hj
      simp only [Function.comp]
      apply Finset.sum_congr rfl
      intro k hk
      have hassoc : (prev ++ [a]) ++ rest' = prev ++ a :: rest' := by simp
      have hidx : (((prev ++ [a]).length : Int)) + j - k
          = (t : Int) + ((Nat.succ j : Nat) : Int) - k := by
        rw [hla]
        push_cast
        ring
      rw [hassoc, hidx]

theorem map_range_getD_self (l : List ℚ) :
    (List.range l.length).map (fun j => l.getD j 0) = l := by
  apply List.ext_getElem (by simp)
  intro i h1 h2
  simp [List.getD_eq_getElem?_getD, List.getElem?_eq_getElem h2]

theorem cabRun_fir (ir : List ℚ) (irLen : Nat) (x : List ℚ) :
    (cabRun ir irLen x (List.replicate (irLen + FRAMES_PER_BLOCK) 0) 0).1
      = fir ir irLen x := by
  have hinv : ∀ d : Nat, d < irLen + FRAMES_PER_BLOCK →
      (List.replicate (irLen + FRAMES_PER_BLOCK) (0 : ℚ)).getD
          ((((List.nil (α := ℚ)).length : Int) - 1 - d)
            % ((irLen + FRAMES_PER_BLOCK : Nat) : Int)).toNat 0
        = streamVal [] (((List.nil (α := ℚ)).length : Int) - 1 - d) := by
    intro d hd
    rw [getD_replicate]
    unfold streamVal
    by_cases h0 : (0 : Int) ≤ ((List.nil (α := ℚ)).length : Int) - 1 - d
    · rw [if_pos h0]
      rfl
    · rw [if_neg h0]
  have h := cabRun_conv ir irLen x []
    (List.replicate (irLen + FRAMES_PER_BLOCK) 0) (by simp) hinv
  simp only [List.length_nil, Nat.zero_mod, List.nil_append] at h
  rw [h]
  unfold fir
  apply List.map_congr_left
  intro j hj
  apply Finset.sum_congr rfl
  intro k hk
  congr 1
  unfold streamVal
  by_cases hkj : k ≤ j
  · rw [if_pos hkj, if_pos (by omega)]
    congr 1
    omega
  · rw [if_neg hkj, if_neg (by omega)]

theorem fir_impulse (L : Nat) (hL : 1 ≤ L) (x : List ℚ) :
    fir (1 :: List.replicate (L - 1) 0) L x = x := by
  unfold fir
  have hsum : ∀ j : Nat, (∑ k in Finset.range L,
      (1 :: List.replicate (L - 1) (0 : ℚ)).getD k 0
        * (if k ≤ j then x.getD (j - k) 0 else 0)) = x.getD j 0 := by
    intro j
    rw [Finset.sum_eq_single 0]
    · simp
    · intro k hk hk0
      cases k with
      | zero => exact absurd rfl hk0
      | succ m =>
        rw [List.getD_cons_succ, getD_replicate]
        ring
    · intro h0
      exact absurd (Finset.mem_range.mpr (by omega)) h0
  calc (List.range x.length).map (fun j => ∑ k in Finset.range L,
        (1 :: List.replicate (L - 1) (0 : ℚ)).getD k 0
          * (if k ≤ j then x.getD (j - k) 0 else 0))
      = (List.range x.length).map (fun j => x.getD j 0) := by
        apply List.map_congr_left
        intro j hj
        exact hsum j
    _ = x := map_range_getD_self x

theorem fir_zero_ir (L : Nat) (x : List ℚ) :
    fir (List.replicate L 0) L x = List.replicate x.length 0 := by
  unfold fir
  have hsum : ∀ j : Nat, (∑ k in Finset.range L,
      (List.replicate L (0 : ℚ)).getD k 0
        * (if k ≤ j then x.getD (j - k) 0 else 0)) = 0 := by
    intro j
    apply Finset.sum_eq_zero
    intro k hk
    rw [getD_replicate]
    ring
  calc (List.range x.length).map (fun j => ∑ k in Finset.range L,
        (List.replicate L (0 : ℚ)).getD k 0
          * (if k ≤ j then x.getD (j - k) 0 else 0))
      = (List.range x.length).map (fun _ => (0 : ℚ)) := by
        apply List.map_congr_left
        intro j hj
        exact hsum j
    _ = List.replicate x.length 0 := by simp [List.eq_replicate_iff]

theorem cab_stage_fields (inst : NamInstance) (buf : List ℚ) (nn : Nat) :
    (cab_stage inst buf nn).1.mono_in = inst.mono_in
    ∧ (cab_stage inst buf nn).1.mono_out = inst.mono_out
    ∧ (cab_stage inst buf nn).1.output_gain = inst.output_gain := by
  unfold cab_stage
  split
  · exact apply_cab_ir_fields inst buf nn
  · exact ⟨rfl, rfl, rfl⟩

theorem cab_stage_snd_length (inst : NamInstance) (buf : List ℚ) (nn : Nat) :
    (cab_stage inst buf nn).2.length = buf.length := by
  unfold cab_stage
  split
  · exact apply_cab_ir_snd_length inst buf nn
  · rfl

theorem cab_stage_getD_beyond (inst : NamInstance) (buf : List ℚ)
    (nn j : Nat) (d : ℚ) (hf : nn ≤ buf.length) (hj : nn ≤ j) :
    (cab_stage inst buf nn).2.getD j d = buf.getD j d := by
  unfold cab_stage
  split
  · exact apply_cab_ir_getD_beyond inst buf nn j d hf hj
  · rfl

theorem cab_stage_zero (inst : NamInstance) (buf : List ℚ) :
    cab_stage inst buf 0 = (inst, buf) := by
  unfold cab_stage
  split
  · exact apply_cab_ir_zero inst buf
  · rfl

theorem process_core_zero (inst : NamInstance) (f : Model) (audio : List Int) :
    process_core inst f audio 0 = (inst, audio) := by
  have h1 : process_core inst f audio 0
      = ({ (cab_stage inst inst.mono_out 0).1 with
            mono_out := (cab_stage inst inst.mono_out 0).2 }, audio) := rfl
  rw [h1, cab_stage_zero]

theorem v2_process_block_active (inst : NamInstance) (f : Model)
    (audio : List Int) (frames : Int)
    (hp : inst.pending_model = none) (hm : inst.model = some f) :
    v2_process_block inst audio frames
      = process_core inst f audio (clampInt frames) := by
  simp [v2_process_block, activate_pending, hp, hm]

theorem clampFrames_le (frames : Int) : clampFrames frames ≤ FRAMES_PER_BLOCK := by
  unfold clampFrames clampInt FRAMES_PER_BLOCK
  split <;> omega

theorem clampInt_le (frames : Int) : clampInt frames ≤ (FRAMES_PER_BLOCK : Int) := by
  unfold clampInt FRAMES_PER_BLOCK
  split <;> omega

theorem sizeT_of_nonneg (n : Int) (h0 : 0 ≤ n)
    (hle : n ≤ (FRAMES_PER_BLOCK : Int)) : sizeT n = n.toNat := by
  unfold sizeT
  rw [Int.emod_eq_of_lt h0 (by unfold FRAMES_PER_BLOCK at hle; omega)]

theorem process_core_spec (inst : NamInstance) (f : Model) (audio : List Int)
    (n : Int) (hout : inst.mono_out.length = FRAMES_PER_BLOCK) :
    (process_core inst f audio n).2.length = audio.length
    ∧ (∀ j d, 2 * n.toNat ≤ j →
        (process_core inst f audio n).2.getD j d = audio.getD j d)
    ∧ (0 ≤ n → n ≤ (FRAMES_PER_BLOCK : Int) →
        (∀ j d, n.toNat ≤ j →
          (process_core inst f audio n).1.mono_in.getD j d
            = inst.mono_in.getD j d)
        ∧ (∀ j d, n.toNat ≤ j →
          (process_core inst f audio n).1.mono_out.getD j d
            = inst.mono_out.getD j d)
        ∧ (∀ i, i < n.toNat → 2 * i + 1 < audio.length →
          (process_core inst f audio n).2.getD (2 * i) 0
            = toInt16 (clampf ((process_core inst f audio n).1.mono_out.getD i 0
                * inst.output_gain) (-1) 1)
          ∧ (process_core inst f audio n).2.getD (2 * i + 1) 0
            = (process_core inst f audio n).2.getD (2 * i) 0)) := by
  set mi1 := writeLoop (deinterleave audio inst.input_gain) n.toNat inst.mono_in
    with hmi1
  set mo1 := writeLoop (fun i => (f (mi1.take (sizeT n))).getD i 0) (sizeT n)
    inst.mono_out with hmo1
  set inst2 : NamInstance := { inst with mono_in := mi1, mono_out := mo1 } with hinst2
  set rc := cab_stage inst2 mo1 n.toNat with hrcdef
  have hpc : process_core inst f audio n
      = ({ rc.1 with mono_out := rc.2 },
         interleaveLoop
           (fun i => toInt16 (clampf (rc.2.getD i 0 * rc.1.output_gain) (-1) 1))
           n.toNat audio) := rfl
  have hfields := cab_stage_fields inst2 mo1 n.toNat
  have hmin : rc.1.mono_in = mi1 := hfields.1
  have hog : rc.1.output_gain = inst.output_gain := hfields.2.2
  have hmo1len : mo1.length = FRAMES_PER_BLOCK := by
    rw [hmo1, writeLoop_length, hout]
  refine ⟨?_, ?_, ?_⟩
  · rw [hpc]
    exact interleaveLoop_length _ _ _
  · intro j d hj
    rw [hpc]
    show (interleaveLoop _ n.toNat audio).getD j d = audio.getD j d
    rw [interleaveLoop_getD, if_neg (by omega)]
  · intro h0 hle
    have hsz : sizeT n = n.toNat := sizeT_of_nonneg n h0 hle
    have hnn : n.toNat ≤ FRAMES_PER_BLOCK := by
      unfold FRAMES_PER_BLOCK at hle ⊢
      omega
    have hbeyond : ∀ j d, n.toNat ≤ j → rc.2.getD j d = mo1.getD j d := by
      intro j d hj
      rw [hrcdef]
      exact cab_stage_getD_beyond inst2 mo1 n.toNat j d (by omega) hj
    refine ⟨?_, ?_, ?_⟩
    · intro j d hj
      rw [hpc]
      show rc.1.mono_in.getD j d = inst.mono_in.getD j d
      rw [hmin, hmi1, writeLoop_getD, if_neg (by omega)]
    · intro j d hj
      rw [hpc]
      show rc.2.getD j d = inst.mono_out.getD j d
      rw [hbeyond j d hj, hmo1, writeLoop_getD, hsz, if_neg (by omega)]
    · intro i hi hlen2
      rw [hpc]
      show (interleaveLoop _ n.toNat audio).getD (2 * i) 0
          = toInt16 (clampf (rc.2.getD i 0 * inst.output_gain) (-1) 1)
        ∧ (interleaveLoop _ n.toNat audio).getD (2 * i + 1) 0
          = (interleaveLoop _ n.toNat audio).getD (2 * i) 0
      have hd1 : 2 * i / 2 = i := by omega
      have hd2 : (2 * i + 1) / 2 = i := by omega
      constructor
      · rw [interleaveLoop_getD, if_pos ⟨by omega, by omega⟩, hd1, hog]
      · rw [interleaveLoop_getD, if_pos ⟨by omega, by omega⟩, hd2,
          interleaveLoop_getD, if_pos ⟨by omega, by omega⟩, hd1]

theorem process_core_no_cab_mono_out (inst : NamInstance) (f : Model)
    (audio : List Int) (n : Int) (hcab : inst.cab_ir = none) :
    (process_core inst f audio n).1.mono_out
      = writeLoop (fun i =>
          (f ((writeLoop (deinterleave audio inst.input_gain) n.toNat
              inst.mono_in).take (sizeT n))).getD i 0)
        (sizeT n) inst.mono_out := by
  set mi1 := writeLoop (deinterleave audio inst.input_gain) n.toNat inst.mono_in
    with hmi1
  set mo1 := writeLoop (fun i => (f (mi1.take (sizeT n))).getD i 0) (sizeT n)
    inst.mono_out with hmo1
  set inst2 : NamInstance := { inst with mono_in := mi1, mono_out := mo1 } with hinst2
  have hpc : process_core inst f audio n
      = ({ (cab_stage inst2 mo1 n.toNat).1 with
            mono_out := (cab_stage inst2 mo1 n.toNat).2 },
         interleaveLoop
           (fun i => toInt16 (clampf ((cab_stage inst2 mo1 n.toNat).2.getD i 0
              * (cab_stage inst2 mo1 n.toNat).1.output_gain) (-1) 1))
           n.toNat audio) := rfl
  have hc : cab_stage inst2 mo1 n.toNat = (inst2, mo1) := by
    simp [cab_stage, hinst2, hcab]
  rw [hpc, hc]

/-! ## Claim C1 -/

/-- C1: for every instance whose active model is null and whose
pending-model slot is null, `v2_process_block` leaves every sample of the
interleaved stereo buffer exactly unchanged (and the instance untouched),
for any frame count. -/
theorem C1_pass_through_before_first_load (inst : NamInstance)
    (hm : inst.model = none) (hp : inst.pending_model = none)
    (audio : List Int) (frames : Int) :
    v2_process_block inst audio frames = (inst, audio) := by
  simp [v2_process_block, activate_pending, hp, hm]

/-- Witness for C1 at a concrete instance, buffer and frame count. -/
theorem C1_witness :
    v2_process_block emptyInst [1000, -2000, 3, 4] 2 = (emptyInst, [1000, -2000, 3, 4]) :=
  C1_pass_through_before_first_load emptyInst rfl rfl [1000, -2000, 3, 4] 2

/-! ## Claim C4 -/

/-- C4: when the loading flag is set, `load_model_async` returns without
starting a background task and without modifying the instance (in
particular `model_path`, `model_name` and `loading` are untouched), so at
most one load is in flight per instance. -/
theorem C4_second_load_dropped (inst : NamInstance) (path : String)
    (h : inst.loading = true) :
    load_model_async inst path = (inst, false)
    ∧ (load_model_async inst path).1.model_path = inst.model_path
    ∧ (load_model_async inst path).1.model_name = inst.model_name
    ∧ (load_model_async inst path).1.loading = inst.loading
    ∧ (load_model_async inst path).2 = false := by
  simp [load_model_async, h]

/-- Witness for C4 at a concrete loading instance. -/
theorem C4_witness :
    load_model_async loadingInst "models/m1.nam" = (loadingInst, false)
    ∧ (load_model_async loadingInst "models/m1.nam").1.model_path = loadingInst.model_path
    ∧ (load_model_async loadingInst "models/m1.nam").1.model_name = loadingInst.model_name
    ∧ (load_model_async loadingInst "models/m1.nam").1.loading = loadingInst.loading
    ∧ (load_model_async loadingInst "models/m1.nam").2 = false :=
  C4_second_load_dropped loadingInst "models/m1.nam" rfl

/-! ## Claim C6 -/

/-- C6: for an in-range cabinet index whose file fails to decode (the WAV
reader returns 0 samples, embedded as the empty sample list),
`load_cab` leaves the instance entirely unchanged: `cab_ir`, `cab_ir_len`,
`cab_history`, `cab_hist_pos`, `current_cab_index` and `cab_name` all keep
their previous values. -/
theorem C6_failed_decode_is_atomic (inst : NamInstance) (index : Int)
    (h0 : 0 ≤ index) (h1 : index < inst.cab_count) :
    (load_cab inst index []).1 = inst
    ∧ (load_cab inst index []).1.cab_ir = inst.cab_ir
    ∧ (load_cab inst index []).1.cab_ir_len = inst.cab_ir_len
    ∧ (load_cab inst index []).1.cab_history = inst.cab_history
    ∧ (load_cab inst index []).1.cab_hist_pos = inst.cab_hist_pos
    ∧ (load_cab inst index []).1.current_cab_index = inst.current_cab_index
    ∧ (load_cab inst index []).1.cab_name = inst.cab_name := by
  have hg : ¬(index < 0 ∨ inst.cab_count ≤ index) := by omega
  simp [load_cab, hg]

/-- Witness for C6 at a concrete instance with one cab entry. -/
theorem C6_witness :
    (load_cab cabInst 0 []).1 = cabInst
    ∧ (load_cab cabInst 0 []).1.cab_ir = cabInst.cab_ir
    ∧ (load_cab cabInst 0 []).1.cab_ir_len = cabInst.cab_ir_len
    ∧ (load_cab cabInst 0 []).1.cab_history = cabInst.cab_history
    ∧ (load_cab cabInst 0 []).1.cab_hist_pos = cabInst.cab_hist_pos
    ∧ (load_cab cabInst 0 []).1.current_cab_index = cabInst.current_cab_index
    ∧ (load_cab cabInst 0 []).1.cab_name = cabInst.cab_name :=
  C6_failed_decode_is_atomic cabInst 0 (by decide) (by decide)

/-! ## Claim C7 -/

/-- C7: after a successful `load_cab` the installed history buffer has
length `cab_ir_len + FRAMES_PER_BLOCK` and is zero-initialized, the write
cursor is 0, the new IR/history pair is installed, and in the heap-action
trace every install of the new pair precedes every release of the old
pair. -/
theorem C7_paired_replacement (inst : NamInstance) (index : Int)
    (decoded : List ℚ)
    (h0 : 0 ≤ index) (h1 : index < inst.cab_count) (h2 : decoded ≠ []) :
    (load_cab inst index decoded).1.cab_history
        = some (List.replicate ((load_cab inst index decoded).1.cab_ir_len.toNat
            + FRAMES_PER_BLOCK) 0)
    ∧ (load_cab inst index decoded).1.cab_ir_len = (decoded.length : Int)
    ∧ (load_cab inst index decoded).1.cab_hist_pos = 0
    ∧ (load_cab inst index decoded).1.cab_ir = some decoded
    ∧ (load_cab inst index decoded).1.current_cab_index = index
    ∧ (load_cab inst index decoded).2
        = [CabAction.installIR, CabAction.installHist,
           CabAction.freeOldIR, CabAction.freeOldHist]
    ∧ List.indexOf CabAction.installIR (load_cab inst index decoded).2
        < List.indexOf CabAction.freeOldIR (load_cab inst index decoded).2
    ∧ List.indexOf CabAction.installHist (load_cab inst index decoded).2
        < List.indexOf CabAction.freeOldIR (load_cab inst index decoded).2
    ∧ List.indexOf CabAction.installIR (load_cab inst index decoded).2
        < List.indexOf CabAction.freeOldHist (load_cab inst index decoded).2
    ∧ List.indexOf CabAction.installHist (load_cab inst index decoded).2
        < List.indexOf CabAction.freeOldHist (load_cab inst index decoded).2 := by
  have hg : ¬(index < 0 ∨ inst.cab_count ≤ index) := by omega
  have hlen : ¬((decoded.length : Int) ≤ 0) := by
    have := List.length_pos.mpr h2
    omega
  simp [load_cab, hg, hlen, List.indexOf, List.findIdx, List.findIdx.go]
  decide

/-- Witness for C7 at a concrete one-sample IR. -/
theorem C7_witness :
    (load_cab cabInst 0 [5]).1.cab_history
        = some (List.replicate ((load_cab cabInst 0 [5]).1.cab_ir_len.toNat
            + FRAMES_PER_BLOCK) 0)
    ∧ (load_cab cabInst 0 [5]).1.cab_ir_len = ((1 : Nat) : Int)
    ∧ (load_cab cabInst 0 [5]).1.cab_hist_pos = 0
    ∧ (load_cab cabInst 0 [5]).1.cab_ir = some [5]
    ∧ (load_cab cabInst 0 [5]).1.current_cab_index = 0
    ∧ (load_cab cabInst 0 [5]).2
        = [CabAction.installIR, CabAction.installHist,
           CabAction.freeOldIR, CabAction.freeOldHist]
    ∧ List.indexOf CabAction.installIR (load_cab cabInst 0 [5]).2
        < List.indexOf CabAction.freeOldIR (load_cab cabInst 0 [5]).2
    ∧ List.indexOf CabAction.installHist (load_cab cabInst 0 [5]).2
        < List.indexOf CabAction.freeOldIR (load_cab cabInst 0 [5]).2
    ∧ List.indexOf CabAction.installIR (load_cab cabInst 0 [5]).2
        < List.indexOf CabAction.freeOldHist (load_cab cabInst 0 [5]).2
    ∧ List.indexOf CabAction.installHist (load_cab cabInst 0 [5]).2
        < List.indexOf CabAction.freeOldHist (load_cab cabInst 0 [5]).2 :=
  C7_paired_replacement cabInst 0 [5] (by decide) (by decide) (by decide)

/-! ## Claim C10 -/

/-- C10: while a load is in flight, `v2_set_param` with key "model_index"
and a valid index different from the current selection still updates
`current_model_index`, yet the load request is dropped: the active model,
`model_path` and `model_name` are unchanged and no background task starts,
so a subsequent get of "model_index" reports an index whose model was
never loaded. -/
theorem C10_index_updated_but_load_dropped (inst : NamInstance) (idx : Int)
    (hl : inst.loading = true)
    (h0 : 0 ≤ idx) (h1 : idx < inst.model_count)
    (h2 : idx ≠ inst.current_model_index) :
    (v2_set_param_model_index inst idx).1.current_model_index = idx
    ∧ (v2_set_param_model_index inst idx).2 = false
    ∧ (v2_set_param_model_index inst idx).1.model = inst.model
    ∧ (v2_set_param_model_index inst idx).1.model_path = inst.model_path
    ∧ (v2_set_param_model_index inst idx).1.model_name = inst.model_name
    ∧ (v2_set_param_model_index inst idx).1.loading = true
    ∧ v2_get_param_model_index (v2_set_param_model_index inst idx).1
        = toString idx := by
  simp [v2_set_param_model_index, h0, h1, h2, load_model_async, hl,
    v2_get_param_model_index]

/-- Witness for C10 at a concrete loading instance and index 1. -/
theorem C10_witness :
    (v2_set_param_model_index loadingInst 1).1.current_model_index = 1
    ∧ (v2_set_param_model_index loadingInst 1).2 = false
    ∧ (v2_set_param_model_index loadingInst 1).1.model = loadingInst.model
    ∧ (v2_set_param_model_index loadingInst 1).1.model_path = loadingInst.model_path
    ∧ (v2_set_param_model_index loadingInst 1).1.model_name = loadingInst.model_name
    ∧ (v2_set_param_model_index loadingInst 1).1.loading = true
    ∧ v2_get_param_model_index (v2_set_param_model_index loadingInst 1).1
        = toString (1 : Int) :=
  C10_index_updated_but_load_dropped loadingInst 1 rfl (by decide) (by decide) (by decide)

/-! ## Claim C5 -/

/-- C5 counterexample: the claim as stated is false for negative frame
counts.  At `frames = -5` the per-frame loops execute zero iterations, but
the source still calls `model->Process` with the size_t-wrapped count
`(size_t)(-5) = 2^64 - 5` (nam_plugin.cpp line 975), so the model
overwrites the `mono_out` scratch buffer: with a constant-output model the
scratch slot 0 becomes 7 although it was 0, hence the call does not
"modify nothing" and scratch writes are not bounded by
`min(frames, 128) = 0`. -/
theorem C5_counterexample :
    (v2_process_block negInst [10, 20] (-5)).1.mono_out.getD 0 0 = 7
    ∧ negInst.mono_out.getD 0 0 = 0
    ∧ v2_process_block negInst [10, 20] (-5) ≠ (negInst, [10, 20]) := by
  have hv := v2_process_block_active negInst constModel [10, 20] (-5) rfl rfl
  have hm := process_core_no_cab_mono_out negInst constModel [10, 20]
    (clampInt (-5)) rfl
  have hcond1 : 0 < sizeT (clampInt (-5)) := by
    rw [show clampInt (-5) = (-5 : Int) from rfl]
    unfold sizeT
    omega
  have hcond2 : 0 < negInst.mono_out.length := by
    show 0 < (List.replicate FRAMES_PER_BLOCK (0 : ℚ)).length
    rw [List.length_replicate]
    unfold FRAMES_PER_BLOCK
    omega
  have h1 : (v2_process_block negInst [10, 20] (-5)).1.mono_out.getD 0 0 = 7 := by
    rw [hv, hm, writeLoop_getD, if_pos ⟨hcond1, hcond2⟩]
    rfl
  have h2 : negInst.mono_out.getD 0 0 = 0 := rfl
  refine ⟨h1, h2, ?_⟩
  intro he
  rw [he] at h1
  exact absurd (h1.symm.trans h2) (by decide)

/-- C5 (amended): with an active model, for every nonnegative frame count,
`v2_process_block` processes exactly `clampFrames frames = min(frames,
128)` frames: the buffer keeps its length, every interleaved slot at or
beyond `2 * clampFrames frames` (in particular every frame index at or
beyond 128) is unchanged, the mono scratch buffers are untouched at or
beyond `clampFrames frames`, and a call with `frames = 0` modifies
nothing.  (For `frames < 0` the buffer-length and interleaved-slot
conclusions still hold — the per-frame loops run zero iterations — but
the model stage is invoked with the size_t-wrapped count and overwrites
the mono scratch, as the counterexample shows.) -/
theorem C5_frame_count_clamped (inst : NamInstance) (f : Model)
    (audio : List Int) (frames : Int)
    (hp : inst.pending_model = none) (hm : inst.model = some f)
    (hout : inst.mono_out.length = FRAMES_PER_BLOCK) :
    (v2_process_block inst audio frames).2.length = audio.length
    ∧ (∀ j d, 2 * clampFrames frames ≤ j →
        (v2_process_block inst audio frames).2.getD j d = audio.getD j d)
    ∧ (0 ≤ frames →
        (∀ j d, clampFrames frames ≤ j →
          (v2_process_block inst audio frames).1.mono_in.getD j d
            = inst.mono_in.getD j d)
        ∧ (∀ j d, clampFrames frames ≤ j →
          (v2_process_block inst audio frames).1.mono_out.getD j d
            = inst.mono_out.getD j d))
    ∧ clampFrames frames ≤ FRAMES_PER_BLOCK
    ∧ (frames = 0 → v2_process_block inst audio frames = (inst, audio)) := by
  have hv := v2_process_block_active inst f audio frames hp hm
  have hs := process_core_spec inst f audio (clampInt frames) hout
  refine ⟨?_, ?_, ?_, clampFrames_le frames, ?_⟩
  · rw [hv]
    exact hs.1
  · intro j d hj
    rw [hv]
    exact hs.2.1 j d hj
  · intro h0
    have h0' : 0 ≤ clampInt frames := by
      unfold clampInt FRAMES_PER_BLOCK
      split <;> omega
    have hrest := hs.2.2 h0' (clampInt_le frames)
    exact ⟨fun j d hj => hv ▸ hrest.1 j d hj,
      fun j d hj => hv ▸ hrest.2.1 j d hj⟩
  · intro h0
    subst h0
    rw [hv, show clampInt 0 = (0 : Int) from rfl, process_core_zero]

/-- Witness for the amended C5: beyond-capacity slots and scratch slots
untouched at frame count 1, and frame count 0 modifies nothing. -/
theorem C5_witness :
    (v2_process_block activeInst [10, 20, 30, 40] 1).2.getD 2 0 = 30
    ∧ (v2_process_block activeInst [10, 20, 30, 40] 1).1.mono_out.getD 5 0
        = activeInst.mono_out.getD 5 0
    ∧ v2_process_block activeInst [10, 20, 30, 40] 0
        = (activeInst, [10, 20, 30, 40]) := by
  have h1 := C5_frame_count_clamped activeInst idModel [10, 20, 30, 40] 1
    rfl rfl rfl
  have h2 := C5_frame_count_clamped activeInst idModel [10, 20, 30, 40] 0
    rfl rfl rfl
  exact ⟨(h1.2.1 2 0 (by decide)).trans (by decide),
    (h1.2.2.1 (by decide)).2 5 0 (by decide),
    h2.2.2.2.2 rfl⟩

/-! ## Claim C9 -/

/-- C9: for every processed frame `i` of a block with an active model, the
output stage writes the identical value to the left and right channel
slots, namely the int16 conversion (scaling by 32767 with truncation
toward zero) of the mono sample multiplied by the current output linear
gain and hard-clipped to [-1, 1]. -/
theorem C9_dual_mono_output (inst : NamInstance) (f : Model)
    (audio : List Int) (frames : Int) (i : Nat)
    (hp : inst.pending_model = none) (hm : inst.model = some f)
    (hout : inst.mono_out.length = FRAMES_PER_BLOCK)
    (hi : i < clampFrames frames) (hlen : 2 * i + 1 < audio.length) :
    (v2_process_block inst audio frames).2.getD (2 * i) 0
      = toInt16 (clampf ((v2_process_block inst audio frames).1.mono_out.getD i 0
          * inst.output_gain) (-1) 1)
    ∧ (v2_process_block inst audio frames).2.getD (2 * i + 1) 0
      = (v2_process_block inst audio frames).2.getD (2 * i) 0 := by
  have hv := v2_process_block_active inst f audio frames hp hm
  have hs := process_core_spec inst f audio (clampInt frames) hout
  have h0 : 0 ≤ clampInt frames := by
    unfold clampFrames at hi
    omega
  rw [hv]
  exact (hs.2.2 h0 (clampInt_le frames)).2.2 i hi hlen

/-- Witness for C9 at a concrete instance, buffer, frame count and frame
index. -/
theorem C9_witness :
    (v2_process_block activeInst [16384, 16384, 100, 200] 2).2.getD 0 0
      = toInt16 (clampf ((v2_process_block activeInst [16384, 16384, 100, 200] 2).1.mono_out.getD 0 0
          * activeInst.output_gain) (-1) 1)
    ∧ (v2_process_block activeInst [16384, 16384, 100, 200] 2).2.getD 1 0
      = (v2_process_block activeInst [16384, 16384, 100, 200] 2).2.getD 0 0 :=
  C9_dual_mono_output activeInst idModel [16384, 16384, 100, 200] 2 0
    rfl rfl rfl (by decide) (by decide)

/-! ## Claim C2 -/

/-- C2: for an IR of length L ≥ 1 installed with its L + 128 sample
zero-initialized circular history and cursor 0, `apply_cab_ir` (which
writes each input sample into the history at the cursor, overwrites it
with the sum over k of ir[k] times the history value k slots behind the
cursor modulo L + 128, and advances the cursor) produces exactly the
textbook direct-form FIR convolution of the input stream with the IR; in
particular a unit-impulse IR passes the signal through unchanged and an
all-zero IR yields silence. -/
theorem C2_apply_cab_ir_is_fir (inst : NamInstance) (ir x : List ℚ) (L : Nat)
    (hL : 1 ≤ L) (hlen : ir.length = L)
    (hir : inst.cab_ir = some ir) (hirlen : inst.cab_ir_len = (L : Int))
    (hhist : inst.cab_history = some (List.replicate (L + FRAMES_PER_BLOCK) 0))
    (hpos : inst.cab_hist_pos = 0) :
    (apply_cab_ir inst x x.length).2 = fir ir L x
    ∧ (ir = 1 :: List.replicate (L - 1) 0 →
        (apply_cab_ir inst x x.length).2 = x)
    ∧ (ir = List.replicate L 0 →
        (apply_cab_ir inst x x.length).2 = List.replicate x.length 0) := by
  have hg : ¬((L : Int) ≤ 0) := by omega
  have hmain : (apply_cab_ir inst x x.length).2 = fir ir L x := by
    simp only [apply_cab_ir, hir, hhist, hirlen, hpos, hg, if_false,
      Int.toNat_natCast, List.take_length, List.drop_length, List.append_nil]
    exact cabRun_fir ir L x
  refine ⟨hmain, ?_, ?_⟩
  · intro himp
    rw [hmain, himp]
    exact fir_impulse L hL x
  · intro hz
    rw [hmain, hz]
    exact fir_zero_ir L x

/-- Witness for C2 at the concrete two-tap unit-impulse IR [1, 0]. -/
theorem C2_witness :
    (apply_cab_ir cabInst [3, 5, 7] 3).2 = fir [1, 0] 2 [3, 5, 7]
    ∧ ([1, 0] = 1 :: List.replicate (2 - 1) (0 : ℚ) →
        (apply_cab_ir cabInst [3, 5, 7] 3).2 = [3, 5, 7])
    ∧ ([1, 0] = List.replicate 2 (0 : ℚ) →
        (apply_cab_ir cabInst [3, 5, 7] 3).2 = List.replicate 3 0) :=
  C2_apply_cab_ir_is_fir cabInst [1, 0] [3, 5, 7] 2
    (by decide) rfl rfl rfl rfl rfl

/-! ## Claim C3 -/

/-- C3: in every execution of the background loader body, the store of the
construction result into the pending-model slot (trace index 2) happens
before the store clearing the loading flag (trace index 3): every
clear-loading event is strictly preceded by the publish, and replaying any
prefix of the trace from a loading state never shows the flag cleared
while the result is unpublished. -/
theorem C3_publish_before_clear (result p0 : Option Model) :
    ((model_loader_thread result).get? 2 = some (LoadEvent.storePending result)
      ∧ (model_loader_thread result).get? 3 = some LoadEvent.clearLoading
      ∧ ∀ i, (model_loader_thread result).get? i = some LoadEvent.clearLoading
          → 2 < i)
    ∧ ∀ k,
        (runEvents ⟨p0, true⟩ ((model_loader_thread result).take k)).loading = false
        → (runEvents ⟨p0, true⟩ ((model_loader_thread result).take k)).pending
            = result := by
  refine ⟨⟨rfl, rfl, ?_⟩, ?_⟩
  · intro i h
    match i with
    | 0 => simp [model_loader_thread] at h
    | 1 => simp [model_loader_thread] at h
    | 2 => simp [model_loader_thread] at h
    | 3 => omega
    | n + 4 => simp [model_loader_thread] at h
  · intro k h
    match k with
    | 0 => simp [model_loader_thread, runEvents, applyEvent] at h
    | 1 => simp [model_loader_thread, runEvents, applyEvent] at h
    | 2 => simp [model_loader_thread, runEvents, applyEvent] at h
    | 3 => simp [model_loader_thread, runEvents, applyEvent] at h
    | n + 4 =>
      have ht : (model_loader_thread result).take (n + 4) = model_loader_thread result :=
        List.take_of_length_le (by simp [model_loader_thread])
      rw [ht]
      rfl

/-- Witness for C3: replaying the full trace from a loading state with an
empty pending slot publishes the (here: failed, null) result. -/
theorem C3_witness :
    (runEvents ⟨some idModel, true⟩
        ((model_loader_thread (none : Option Model)).take 4)).pending = none :=
  (C3_publish_before_clear none (some idModel)).2 4 rfl

/-! ## Claim C8 -/

/-- C8: scanning a directory whose entries are exactly {"B.nam", "a.NAM",
".hidden.nam", "c.txt"} (in any enumeration order) with the model-file
predicate yields exactly the two display names "a" and "B", in that
case-insensitive sorted order; the hidden entry and the non-matching
extension are excluded. -/
theorem C8_scan_catalog (entries : List (List Char))
    (h : entries.Perm
      ["B.nam".data, "a.NAM".data, ".hidden.nam".data, "c.txt".data]) :
    (scan_directory "models".data entries 256 is_model_file).map Prod.fst
      = ["a".data, "B".data] := by
  have hmem : entries ∈ permsOf
      ["B.nam".data, "a.NAM".data, ".hidden.nam".data, "c.txt".data] :=
    permsOf_complete _ entries h
  clear h
  revert entries
  decide

/-- Witness for C8 at one concrete enumeration order. -/
theorem C8_witness :
    (scan_directory "models".data
        ["B.nam".data, "a.NAM".data, ".hidden.nam".data, "c.txt".data]
        256 is_model_file).map Prod.fst
      = ["a".data, "B".data] :=
  C8_scan_catalog _ (List.Perm.refl _)

end Nam
